import Mathlib

/-!
Shallow embedding of `synapse/push/bulk_push_rule_evaluator.py` (bulk push
rule evaluation engine) and verification of its specification claims.

Modelling conventions:
* Python dicts used as string-keyed maps become association lists
  (`List (String × α)`) with first-match lookup and overwriting insert.
* The external condition evaluator (`PushRuleEvaluatorForEvent.matches`,
  out of scope per the spec) is a parameter of type `Ev`; it may fail
  (`Except`), since a collaborator failure must propagate.
* Asynchronous collaborator calls (`store.are_guests`,
  `handler._filter_events_for_clients`, `store.get_state_for_event`,
  `json.loads` inside `decode_rule_json`) are parameters returning `Except`:
  an `Except.error` models the call raising.
* To make invocation counting observable (needed for the caching and
  short-circuit claims), each function additionally returns the list of
  conditions on which the external evaluator was invoked, in order.  This
  ghost output is pure instrumentation and mirrors no source data.
-/

/-- Error values carried by failing collaborator calls / decoders. -/
abbrev Err := String

/-- A push-rule condition: an opaque payload (`tag` stands for the
discriminated kind plus its parameters) and the optional `_id` cache
identifier field. -/
structure Cond where
  tag : Nat
  id : Option String
deriving DecidableEq, Repr

/-- `_id = cond.get("_id", None); if _id:` — the identifier is used only
when present and truthy (a non-empty string). -/
def condId (c : Cond) : Option String :=
  match c.id with
  | some s => if s = "" then none else some s
  | none => none

/-- A push-rule action: either a plain string (such as the sentinel
`"dont_notify"` or `"notify"`) or a structured directive (opaque). -/
inductive PushAction where
  | str (s : String)
  | obj (payload : Nat)
deriving DecidableEq, Repr

/-- A decoded push rule: optional `enabled` flag, ordered conditions,
ordered actions. -/
structure Rule where
  enabled : Option Bool
  conditions : List Cond
  actions : List PushAction
deriving DecidableEq, Repr

/-- First-match lookup in an association list (Python `d.get(k)` / `d[k]`). -/
def alookup {α : Type} : List (String × α) → String → Option α
  | [], _ => none
  | (k, v) :: rest, key => if k = key then some v else alookup rest key

/-- Overwriting insert (Python `d[k] = v`). -/
def aset {α : Type} : List (String × α) → String → α → List (String × α)
  | [], key, v => [(key, v)]
  | (k, w) :: rest, key, v =>
    if k = key then (key, v) :: rest else (k, w) :: aset rest key v

/-- The per-event condition cache: cache identifier ↦ boolean result. -/
abbrev Cache := List (String × Bool)

/-- The keys currently present in a cache. -/
def cacheKeys (cache : Cache) : List String := cache.map Prod.fst

/-- An event; only its identifier is consulted by this module
(`event.event_id` for the room-state lookup). -/
structure Event where
  event_id : String
deriving DecidableEq, Repr

/-- The external condition evaluator
(`PushRuleEvaluatorForEvent.matches(cond, uid, display_name, None)`):
condition, user id, display name (possibly absent) to boolean, possibly
failing. -/
abbrev Ev := Cond → String → Option String → Except Err Bool

/-- `_condition_checker(evaluator, conditions, uid, display_name, cache)`.

Returns (result, final cache, list of conditions the evaluator was invoked
on).  Faithful to the source, including the `break` on a cached `False`
(which exits the loop and falls through to `return True`):

    for cond in conditions:
        _id = cond.get("_id", None)
        if _id:
            res = cache.get(_id, None)
            if res is False:
                break
            elif res is True:
                continue
        res = evaluator.matches(cond, uid, display_name, None)
        if _id:
            cache[_id] = res
        if res is False:
            return False
    return True
-/
def conditionChecker (E : Ev) (conds : List Cond) (uid : String)
    (dn : Option String) (cache : Cache) :
    Except Err (Bool × Cache × List Cond) :=
  match conds with
  | [] => .ok (true, cache, [])
  | c :: rest =>
    match condId c with
    | some i =>
      match alookup cache i with
      | some false => .ok (true, cache, [])
      | some true => conditionChecker E rest uid dn cache
      | none =>
        match E c uid dn with
        | .error e => .error e
        | .ok res =>
          if res then
            match conditionChecker E rest uid dn (aset cache i res) with
            | .error e => .error e
            | .ok (b, ca, cs) => .ok (b, ca, c :: cs)
          else .ok (false, aset cache i res, [c])
    | none =>
      match E c uid dn with
      | .error e => .error e
      | .ok res =>
        if res then
          match conditionChecker E rest uid dn cache with
          | .error e => .error e
          | .ok (b, ca, cs) => .ok (b, ca, c :: cs)
        else .ok (false, cache, [c])

/-- The sentinel-removal step:
`[x for x in rule['actions'] if x != 'dont_notify']`. -/
def filterActions (acts : List PushAction) : List PushAction :=
  acts.filter (fun a => a ≠ PushAction.str "dont_notify")

/-- The per-user entry produced by a winning rule: its actions with
`dont_notify` removed when that list is non-empty, no entry otherwise. -/
def ruleEntry (r : Rule) : Option (List PushAction) :=
  if filterActions r.actions = [] then none else some (filterActions r.actions)

/-- The inner `for rule in rules:` loop of `action_for_event_by_user`:

    for rule in rules:
        if 'enabled' in rule and not rule['enabled']:
            continue
        matches = _condition_checker(
            evaluator, rule['conditions'], uid, display_name, condition_cache
        )
        if matches:
            actions = [x for x in rule['actions'] if x != 'dont_notify']
            if actions:
                actions_by_user[uid] = actions
            break

Returns (the user's entry if a matching rule produced one, final cache,
evaluator invocation log). -/
def rulesLoop (E : Ev) (uid : String) (dn : Option String) :
    List Rule → Cache → Except Err (Option (List PushAction) × Cache × List Cond)
  | [], cache => .ok (none, cache, [])
  | r :: rest, cache =>
    if r.enabled = some false then rulesLoop E uid dn rest cache
    else
      match conditionChecker E r.conditions uid dn cache with
      | .error e => .error e
      | .ok (matched, cache2, cs) =>
        if matched then .ok (ruleEntry r, cache2, cs)
        else
          match rulesLoop E uid dn rest cache2 with
          | .error e => .error e
          | .ok (o, ca, cs2) => .ok (o, ca, cs ++ cs2)

/-- A member state event, as consumed by the display-name pass: its type,
state key, and the `content.get("displayname", None)` field. -/
structure StateEvent where
  typ : String
  state_key : String
  displayname : Option String
deriving DecidableEq, Repr

/-- `EventTypes.Member` from `synapse.api.constants`. -/
def memberEventType : String := "m.room.member"

/-- The display-name pass of `action_for_event_by_user`:

    display_names = {}
    for ev in member_state.values():
        nm = ev.content.get("displayname", None)
        if nm and ev.type == EventTypes.Member:
            display_names[ev.state_key] = nm
-/
def buildDisplayNames (member_state : List StateEvent) :
    List (String × String) :=
  member_state.foldl
    (fun acc ev =>
      match ev.displayname with
      | some nm =>
        if nm ≠ "" ∧ ev.typ = memberEventType then aset acc ev.state_key nm
        else acc
      | none => acc)
    []

/-- The outer `for uid, rules in self.rules_by_user.items():` loop:

    for uid, rules in self.rules_by_user.items():
        display_name = display_names.get(uid, None)
        filtered = filtered_by_user[uid]
        if len(filtered) == 0:
            continue
        <rulesLoop>

`filtered_by_user[uid]` raises `KeyError` when the visibility filter
returned no entry for `uid`; modelled as `Except.error "KeyError"`. -/
def usersLoop (E : Ev) (displayNames : List (String × String))
    (filteredByUser : List (String × List Event)) :
    List (String × List Rule) → Cache → List (String × List PushAction) →
    Except Err (List (String × List PushAction) × Cache × List Cond)
  | [], cache, acc => .ok (acc, cache, [])
  | (uid, rules) :: rest, cache, acc =>
    match alookup filteredByUser uid with
    | none => .error "KeyError"
    | some filtered =>
      if filtered.length = 0 then usersLoop E displayNames filteredByUser rest cache acc
      else
        match rulesLoop E uid (alookup displayNames uid) rules cache with
        | .error e => .error e
        | .ok (entry, cache2, cs) =>
          match usersLoop E displayNames filteredByUser rest cache2
              (match entry with
               | some actions => aset acc uid actions
               | none => acc) with
          | .error e => .error e
          | .ok (res, ca, cs2) => .ok (res, ca, cs ++ cs2)

/-- The state of a `BulkPushRuleEvaluator` instance
(`self.room_id`, `self.rules_by_user`, `self.users_in_room`). -/
structure BulkPushRuleEvaluator where
  room_id : String
  rules_by_user : List (String × List Rule)
  users_in_room : List String
deriving DecidableEq, Repr

/-- `BulkPushRuleEvaluator.action_for_event_by_user(event, handler)`.

Collaborators are passed as possibly-failing functions:
`areGuests` is `store.are_guests`, `filterForClients` is
`handler._filter_events_for_clients`, `mkEvaluator` builds the external
`PushRuleEvaluatorForEvent(event, len(users_in_room))`, `getStateForEvent`
is `store.get_state_for_event`.

Explicit state passing: the instance state is returned alongside the
actions map (the source never assigns to `self`, so the returned state is
the input state).  The third component of the success value is the ghost
evaluator-invocation log; the condition cache is allocated fresh here
(`condition_cache = {}`) and is not part of the result. -/
def action_for_event_by_user (B : BulkPushRuleEvaluator)
    (areGuests : List String → Except Err (List (String × Bool)))
    (filterForClients : List (String × Bool) → List Event →
      Except Err (List (String × List Event)))
    (mkEvaluator : Event → Nat → Ev)
    (getStateForEvent : String → Except Err (List StateEvent))
    (event : Event) :
    Except Err (BulkPushRuleEvaluator × List (String × List PushAction) × List Cond) :=
  match areGuests (B.rules_by_user.map Prod.fst) with
  | .error e => .error e
  | .ok users_dict =>
    match filterForClients users_dict [event] with
    | .error e => .error e
    | .ok filtered_by_user =>
      let evaluator := mkEvaluator event B.users_in_room.length
      match getStateForEvent event.event_id with
      | .error e => .error e
      | .ok member_state =>
        let display_names := buildDisplayNames member_state
        match usersLoop evaluator display_names filtered_by_user
            B.rules_by_user [] [] with
        | .error e => .error e
        | .ok (actions_by_user, _, cs) => .ok (B, actions_by_user, cs)

/-- A raw stored rule row.  Its `conditions` and `actions` columns hold
serialized text; `json.loads` on them is external, so the row carries the
decoder's outcome for each column (`Except.error` models a malformed
serialized list raising a deserialization error). -/
structure RawRule where
  conditionsSer : Except Err (List Cond)
  actionsSer : Except Err (List PushAction)
  enabled : Option Bool

/-- `decode_rule_json(rule)`:

    rule['conditions'] = json.loads(rule['conditions'])
    rule['actions'] = json.loads(rule['actions'])
    return rule
-/
def decode_rule_json (r : RawRule) : Except Err Rule :=
  match r.conditionsSer with
  | .error e => .error e
  | .ok conds =>
    match r.actionsSer with
    | .error e => .error e
    | .ok acts => .ok ⟨r.enabled, conds, acts⟩

/-- Decoding of one user's row list
(`[decode_rule_json(rule_list) for rule_list in rules_by_user.get(uid, [])]`):
the first failing row aborts the whole list. -/
def decodeRows : List RawRule → Except Err (List Rule)
  | [] => .ok []
  | r :: rs =>
    match decode_rule_json r with
    | .error e => .error e
    | .ok rule =>
      match decodeRows rs with
      | .error e => .error e
      | .ok rules => .ok (rule :: rules)

/-- `_get_rules(room_id, user_ids, store)`: decode every user's stored rows
and merge with the base rules (`baserules.list_with_base_rules`, external,
passed as `withBase`).  `store` stands for the result of the batched
`store.bulk_get_push_rules(user_ids)` read, defaulting to `[]` for absent
users (`rules_by_user.get(uid, [])`). -/
def getRules (store : String → List RawRule)
    (withBase : List Rule → List Rule) :
    List String → Except Err (List (String × List Rule))
  | [] => .ok []
  | uid :: rest =>
    match decodeRows (store uid) with
    | .error e => .error e
    | .ok rules =>
      match getRules store withBase rest with
      | .error e => .error e
      | .ok m => .ok ((uid, withBase rules) :: m)

/-- Number of logged evaluator invocations on conditions carrying the cache
identifier `i`. -/
def countId (i : String) (cs : List Cond) : Nat :=
  (cs.filter (fun c => condId c = some i)).length

/-- Invariant of one (sub-)run for a fixed cache identifier `i`, relating
the cache before (`cache`), the cache after (`ca`) and the evaluator calls
made (`cs`): at most one call carries `i`; none does if `i` was already
cached; if one does, `i` is cached afterwards; cached keys persist. -/
def CallInv (i : String) (cache ca : Cache) (cs : List Cond) : Prop :=
  countId i cs ≤ 1 ∧
  (i ∈ cacheKeys cache → countId i cs = 0) ∧
  (1 ≤ countId i cs → i ∈ cacheKeys ca) ∧
  (i ∈ cacheKeys cache → i ∈ cacheKeys ca)

/-- A prefix run of `_condition_checker` in which every condition passes
(either found `True` in the cache, or freshly evaluated `True`); returns the
cache and call log after the prefix.  Used to position a condition at an
arbitrary index inside a rule's condition list. -/
def allPass (E : Ev) (uid : String) (dn : Option String) :
    List Cond → Cache → Option (Cache × List Cond)
  | [], cache => some (cache, [])
  | c :: rest, cache =>
    match condId c with
    | some i =>
      match alookup cache i with
      | some true => allPass E uid dn rest cache
      | some false => none
      | none =>
        match E c uid dn with
        | .ok true =>
          match allPass E uid dn rest (aset cache i true) with
          | some (ca, cs) => some (ca, c :: cs)
          | none => none
        | _ => none
    | none =>
      match E c uid dn with
      | .ok true =>
        match allPass E uid dn rest cache with
        | some (ca, cs) => some (ca, c :: cs)
        | none => none
      | _ => none

/-- A prefix run of the rule loop in which no rule wins: every rule is
either disabled or has its condition check return `False`; returns the
cache and call log after the prefix.  Used to position a rule at an
arbitrary index inside a user's priority-ordered rule list. -/
def noRuleWins (E : Ev) (uid : String) (dn : Option String) :
    List Rule → Cache → Option (Cache × List Cond)
  | [], cache => some (cache, [])
  | r :: rest, cache =>
    if r.enabled = some false then noRuleWins E uid dn rest cache
    else
      match conditionChecker E r.conditions uid dn cache with
      | .ok (false, c2, cs) =>
        match noRuleWins E uid dn rest c2 with
        | some (ca, cs2) => some (ca, cs ++ cs2)
        | none => none
      | _ => none

/-- A concrete evaluator answering `False` to every condition. -/
def evAllFalse : Ev := fun _ _ _ => .ok false

/-- A concrete evaluator answering `True` to every condition. -/
def evAllTrue : Ev := fun _ _ _ => .ok true

/-- A concrete evaluator answering `True` exactly on conditions whose
payload tag is `1`. -/
def evByTag : Ev := fun c _ _ => .ok (c.tag == 1)

/-- A concrete evaluator that fails on every condition (models the external
condition evaluator raising). -/
def evAllError : Ev := fun _ _ _ => .error "evaluator failed"

/-- Removal of every pair with the given key from an association list.
Used to state that skipping a user leaves the evaluation of the remaining
users exactly as if the skipped user were absent from the rule mapping. -/
def eraseKey {α : Type} (key : String) : List (String × α) → List (String × α)
  | [] => []
  | (k, v) :: rest =>
    if k = key then eraseKey key rest else (k, v) :: eraseKey key rest

/-! ## Basic lemmas about association lists and call counting -/

theorem alookup_aset_self {α : Type} (m : List (String × α)) (k : String) (v : α) :
    alookup (aset m k v) k = some v := by
  induction m with
  | nil => simp [aset, alookup]
  | cons hd tl ih =>
    obtain ⟨k', w⟩ := hd
    by_cases h : k' = k
    · simp [aset, h, alookup]
    · simp [aset, h, alookup, ih]

theorem alookup_aset_ne {α : Type} (m : List (String × α)) (k k' : String) (v : α)
    (h : k ≠ k') : alookup (aset m k v) k' = alookup m k' := by
  induction m with
  | nil => simp [aset, alookup, h]
  | cons hd tl ih =>
    obtain ⟨k0, w⟩ := hd
    by_cases h0 : k0 = k
    · simp [aset, h0, alookup, h, Ne.symm h]
    · by_cases h1 : k0 = k'
      · simp [aset, h0, alookup, h1, Ne.symm h]
      · simp [aset, h0, alookup, h1, ih]

theorem mem_cacheKeys_aset_self (c : Cache) (i : String) (v : Bool) :
    i ∈ cacheKeys (aset c i v) := by
  induction c with
  | nil => simp [aset, cacheKeys]
  | cons hd tl ih =>
    obtain ⟨k, w⟩ := hd
    by_cases h : k = i
    · simp [aset, h, cacheKeys]
    · simp only [aset, if_neg h]
      simp [cacheKeys] at ih ⊢
      exact Or.inr ih

theorem mem_cacheKeys_aset (c : Cache) (i j : String) (v : Bool)
    (h : j ∈ cacheKeys c) : j ∈ cacheKeys (aset c i v) := by
  induction c with
  | nil => simp [cacheKeys] at h
  | cons hd tl ih =>
    obtain ⟨k, w⟩ := hd
    by_cases hk : k = i
    · simp [cacheKeys, aset, hk] at h ⊢
      rcases h with h | h
      · exact Or.inl (hk ▸ h)
      · exact Or.inr h
    · simp [cacheKeys, aset, hk] at h ⊢
      rcases h with h | h
      · exact Or.inl h
      · exact Or.inr (by simpa [cacheKeys] using ih (by simpa [cacheKeys] using h))

theorem alookup_none_of_not_mem_keys (c : Cache) (i : String)
    (h : alookup c i = none) : i ∉ cacheKeys c := by
  induction c with
  | nil => simp [cacheKeys]
  | cons hd tl ih =>
    obtain ⟨k, w⟩ := hd
    intro hmem
    by_cases hk : k = i
    · simp [alookup, hk] at h
    · simp only [alookup, if_neg hk] at h
      have hmem' : i = k ∨ i ∈ cacheKeys tl := by
        simpa [cacheKeys] using hmem
      rcases hmem' with h1 | h1
      · exact hk h1.symm
      · exact ih h h1

theorem countId_nil (i : String) : countId i [] = 0 := rfl

theorem countId_cons (i : String) (c : Cond) (cs : List Cond) :
    countId i (c :: cs) =
      (if condId c = some i then 1 else 0) + countId i cs := by
  simp only [countId, List.filter_cons]
  split
  · next h => simp_all; omega
  · next h => simp_all

theorem countId_append (i : String) (cs1 cs2 : List Cond) :
    countId i (cs1 ++ cs2) = countId i cs1 + countId i cs2 := by
  simp [countId, List.filter_append]

theorem CallInv.refl (i : String) (cache : Cache) : CallInv i cache cache [] := by
  refine ⟨by simp [countId_nil], fun _ => rfl, fun h => ?_, fun h => h⟩
  simp [countId_nil] at h

theorem CallInv.comp {i : String} {c0 c1 c2 : Cache} {cs1 cs2 : List Cond}
    (h1 : CallInv i c0 c1 cs1) (h2 : CallInv i c1 c2 cs2) :
    CallInv i c0 c2 (cs1 ++ cs2) := by
  obtain ⟨p1, q1, r1, m1⟩ := h1
  obtain ⟨p2, q2, r2, m2⟩ := h2
  refine ⟨?_, ?_, ?_, fun h => m2 (m1 h)⟩
  · rw [countId_append]
    rcases Nat.eq_zero_or_pos (countId i cs1) with h | h
    · omega
    · have : countId i cs2 = 0 := q2 (r1 h)
      omega
  · intro h
    rw [countId_append, q1 h, q2 (m1 h)]
  · intro h
    rw [countId_append] at h
    rcases Nat.eq_zero_or_pos (countId i cs1) with h1' | h1'
    · exact r2 (by omega)
    · exact m2 (r1 h1')

/-! ## Claim theorems (with their supporting lemmas) -/

theorem rulesLoop_head_match (E : Ev) (uid : String) (dn : Option String)
    (r : Rule) (rest : List Rule) (cache c2 : Cache) (cs : List Cond)
    (hen : r.enabled ≠ some false)
    (hchk : conditionChecker E r.conditions uid dn cache = .ok (true, c2, cs)) :
    rulesLoop E uid dn (r :: rest) cache = .ok (ruleEntry r, c2, cs) := by
  simp only [rulesLoop, if_neg hen, hchk]
  simp

/-- Claim C1 (refuted by the code — `code_bug`): the claim states that
`_condition_checker` returns `False` whenever any condition's result is
`False`, *including a result retrieved from the cache*.  The code instead
executes `break` on a cached `False`, falling through to `return True`.
First conjunct: with the cache holding `False` for identifier `"c1"`, the
checker answers `True` for a rule whose only condition carries `"c1"`,
while the evaluator (if asked) would answer `False`.  Second conjunct:
this state is reachable — an all-`False` evaluator makes rule 1 store
`("c1", false)` in the cache, whereupon rule 2 (same identifier) *wins*
with action `notify`. -/
theorem claim1_cached_false_gives_match :
    conditionChecker evAllFalse [⟨0, some "c1"⟩] "u1" none [("c1", false)]
      = .ok (true, [("c1", false)], []) ∧
    rulesLoop evAllFalse "u1" none
      [⟨none, [⟨0, some "c1"⟩], [PushAction.str "notify"]⟩,
       ⟨none, [⟨1, some "c1"⟩], [PushAction.str "notify"]⟩] []
      = .ok (some [PushAction.str "notify"], [("c1", false)], [⟨0, some "c1"⟩]) :=
  ⟨rfl, rfl⟩

/-- Claim C9 (confirmed): `_condition_checker` on an empty condition list
returns `True` with no evaluator invocation (empty call log) and an
unchanged cache, so an enabled rule with no conditions always wins for any
user that reaches it, yielding that rule's entry. -/
theorem claim9_empty_conditions :
    (∀ (E : Ev) (uid : String) (dn : Option String) (cache : Cache),
      conditionChecker E [] uid dn cache = .ok (true, cache, [])) ∧
    (∀ (E : Ev) (uid : String) (dn : Option String) (A : Rule)
      (rest : List Rule) (cache : Cache),
      A.enabled ≠ some false → A.conditions = [] →
      rulesLoop E uid dn (A :: rest) cache = .ok (ruleEntry A, cache, [])) := by
  constructor
  · intro E uid dn cache
    rfl
  · intro E uid dn A rest cache hen hc
    exact rulesLoop_head_match E uid dn A rest cache cache [] hen (by rw [hc]; rfl)

/-- Witness for C9: a concrete enabled rule with no conditions wins with
its (filtered) actions, with no evaluator call. -/
theorem claim9_empty_conditions_witness :
    rulesLoop evAllFalse "u1" none [⟨none, [], [PushAction.str "notify"]⟩] []
      = .ok (some [PushAction.str "notify"], [], []) := by
  have h := claim9_empty_conditions.2 evAllFalse "u1" none
    ⟨none, [], [PushAction.str "notify"]⟩ [] [] (by simp) rfl
  rw [h]
  rfl

/-- Claim C7 (confirmed): a rule whose `enabled` flag is present and
`false` is skipped — the loop behaves exactly as if the rule were absent,
so its conditions are never evaluated; a rule with no `enabled` flag
behaves exactly like the same rule with `enabled = true`. -/
theorem claim7_disabled_rules :
    ∀ (E : Ev) (uid : String) (dn : Option String) (r : Rule)
      (rest : List Rule) (cache : Cache),
    (r.enabled = some false →
      rulesLoop E uid dn (r :: rest) cache = rulesLoop E uid dn rest cache) ∧
    (r.enabled = none →
      rulesLoop E uid dn (r :: rest) cache =
        rulesLoop E uid dn (⟨some true, r.conditions, r.actions⟩ :: rest) cache) := by
  intro E uid dn r rest cache
  constructor
  · intro h
    simp only [rulesLoop, if_pos h]
  · intro h
    simp only [rulesLoop, ruleEntry]
    rw [h]
    simp

/-- Witness for C7: a disabled rule whose single condition would pass is
skipped (the user gets no entry and the evaluator is never invoked), and
an `enabled`-absent rule wins exactly like an explicitly enabled one. -/
theorem claim7_disabled_rules_witness :
    rulesLoop evAllTrue "u1" none [⟨some false, [⟨0, none⟩], [PushAction.str "notify"]⟩] []
      = .ok (none, [], []) ∧
    rulesLoop evAllTrue "u1" none [⟨none, [], [PushAction.str "notify"]⟩] []
      = rulesLoop evAllTrue "u1" none [⟨some true, [], [PushAction.str "notify"]⟩] [] := by
  constructor
  · rw [(claim7_disabled_rules evAllTrue "u1" none
      ⟨some false, [⟨0, none⟩], [PushAction.str "notify"]⟩ [] []).1 rfl]
    rfl
  · exact (claim7_disabled_rules evAllTrue "u1" none
      ⟨none, [], [PushAction.str "notify"]⟩ [] []).2 rfl

/-- Claim C6 (confirmed): when a rule wins, the user's entry is the rule's
action list with every occurrence of the string `dont_notify` removed, and
the user gets an entry iff that filtered list is non-empty.  First
conjunct: the rule loop yields exactly that optional entry.  Second
conjunct: the user loop records it in the actions map iff it is non-empty
(the map is left untouched when every action was `dont_notify`). -/
theorem claim6_action_filtering :
    (∀ (E : Ev) (uid : String) (dn : Option String) (A : Rule)
      (rest : List Rule) (cache c2 : Cache) (cs : List Cond),
    A.enabled ≠ some false →
    conditionChecker E A.conditions uid dn cache = .ok (true, c2, cs) →
    rulesLoop E uid dn (A :: rest) cache =
      .ok ((if filterActions A.actions = [] then none
            else some (filterActions A.actions)), c2, cs)) ∧
    (∀ (E : Ev) (dns : List (String × String))
      (fbu : List (String × List Event)) (uid : String) (A : Rule)
      (rest : List Rule) (cache : Cache)
      (acc : List (String × List PushAction)) (filtered : List Event)
      (c2 : Cache) (cs : List Cond),
    alookup fbu uid = some filtered → filtered.length ≠ 0 →
    A.enabled ≠ some false →
    conditionChecker E A.conditions uid (alookup dns uid) cache
      = .ok (true, c2, cs) →
    usersLoop E dns fbu [(uid, A :: rest)] cache acc =
      .ok ((if filterActions A.actions = [] then acc
            else aset acc uid (filterActions A.actions)), c2, cs)) := by
  constructor
  · intro E uid dn A rest cache c2 cs hen hchk
    rw [rulesLoop_head_match E uid dn A rest cache c2 cs hen hchk]
    rfl
  · intro E dns fbu uid A rest cache acc filtered c2 cs hf hlen hen hchk
    have hlne : filtered ≠ [] := by
      intro h
      exact hlen (by simp [h])
    have hloop := rulesLoop_head_match E uid (alookup dns uid) A rest cache
      c2 cs hen hchk
    by_cases hempty : filterActions A.actions = []
    · simp [usersLoop, hf, hlen, hlne, hloop, ruleEntry, hempty]
    · simp [usersLoop, hf, hlen, hlne, hloop, ruleEntry, hempty]

/-- Witness for C6: a winning rule with actions exactly `[dont_notify]`
yields no entry (the actions map stays empty); one with
`[notify, dont_notify, sound]` yields `[notify, sound]` for the user. -/
theorem claim6_action_filtering_witness :
    rulesLoop evAllTrue "u1" none [⟨none, [], [PushAction.str "dont_notify"]⟩] []
      = .ok (none, [], []) ∧
    rulesLoop evAllTrue "u1" none
      [⟨none, [], [PushAction.str "notify", PushAction.str "dont_notify",
                   PushAction.str "sound"]⟩] []
      = .ok (some [PushAction.str "notify", PushAction.str "sound"], [], []) ∧
    usersLoop evAllTrue [] [("u1", [⟨"e1"⟩])]
      [("u1", [⟨none, [], [PushAction.str "dont_notify"]⟩])] [] []
      = .ok ([], [], []) ∧
    usersLoop evAllTrue [] [("u1", [⟨"e1"⟩])]
      [("u1", [⟨none, [], [PushAction.str "notify", PushAction.str "dont_notify",
                           PushAction.str "sound"]⟩])] [] []
      = .ok ([("u1", [PushAction.str "notify", PushAction.str "sound"])], [], []) := by
  refine ⟨?_, ?_, ?_, ?_⟩
  · rw [claim6_action_filtering.1 evAllTrue "u1" none
      ⟨none, [], [PushAction.str "dont_notify"]⟩ [] [] [] [] (by simp) rfl]
    rfl
  · rw [claim6_action_filtering.1 evAllTrue "u1" none
      ⟨none, [], [PushAction.str "notify", PushAction.str "dont_notify",
                  PushAction.str "sound"]⟩ [] [] [] [] (by simp) rfl]
    rfl
  · rw [claim6_action_filtering.2 evAllTrue [] [("u1", [⟨"e1"⟩])] "u1"
      ⟨none, [], [PushAction.str "dont_notify"]⟩ [] [] [] [⟨"e1"⟩] [] []
      rfl (by simp) (by simp) rfl]
    rfl
  · rw [claim6_action_filtering.2 evAllTrue [] [("u1", [⟨"e1"⟩])] "u1"
      ⟨none, [], [PushAction.str "notify", PushAction.str "dont_notify",
                  PushAction.str "sound"]⟩ [] [] [] [⟨"e1"⟩] [] []
      rfl (by simp) (by simp) rfl]
    rfl

/-- Counterexample to claim C2 as stated: a user for whom the visibility
filter's result contains *no entry at all* is not skipped — the lookup
`filtered_by_user[uid]` raises `KeyError`, so the whole evaluation fails
instead of succeeding for the remaining users.  Here user `u1` (whose
rules would otherwise win) is absent from the filter result and the whole
call returns the error. -/
theorem claim2_counterexample :
    action_for_event_by_user
      ⟨"room1", [("u1", [⟨none, [], [PushAction.str "notify"]⟩])], ["u1"]⟩
      (fun _ => .ok [("u1", false)]) (fun _ _ => .ok []) (fun _ _ => evAllTrue)
      (fun _ => .ok []) ⟨"e1"⟩ = .error "KeyError" := rfl


theorem conditionChecker_inv (E : Ev) (uid : String) (dn : Option String) (i : String) :
    ∀ (conds : List Cond) (cache : Cache) (b : Bool) (ca : Cache) (cs : List Cond),
    conditionChecker E conds uid dn cache = .ok (b, ca, cs) →
    CallInv i cache ca cs := by
  intro conds
  induction conds with
  | nil =>
    intro cache b ca cs h
    simp only [conditionChecker, Except.ok.injEq, Prod.mk.injEq] at h
    obtain ⟨hb, hca, hcs⟩ := h
    subst hca
    subst hcs
    exact CallInv.refl i cache
  | cons c rest ih =>
    intro cache b ca cs h
    simp only [conditionChecker] at h
    cases hj : condId c with
    | some j =>
      rw [hj] at h
      simp only [] at h
      cases hcg : alookup cache j with
      | some v =>
        rw [hcg] at h
        cases v with
        | false =>
          simp only [Except.ok.injEq, Prod.mk.injEq] at h
          obtain ⟨hb, hca, hcs⟩ := h
          subst hca
          subst hcs
          exact CallInv.refl i cache
        | true =>
          simp only [] at h
          exact ih cache b ca cs h
      | none =>
        rw [hcg] at h
        cases hE : E c uid dn with
        | error e =>
          rw [hE] at h
          simp only [] at h
          cases h
        | ok res =>
          rw [hE] at h
          cases res with
          | true =>
            simp only [if_pos] at h
            cases hrec : conditionChecker E rest uid dn (aset cache j true) with
            | error e =>
              rw [hrec] at h
              simp only [] at h
              cases h
            | ok t =>
              obtain ⟨b', ca', cs'⟩ := t
              rw [hrec] at h
              simp only [Except.ok.injEq, Prod.mk.injEq] at h
              obtain ⟨hb, hca, hcs⟩ := h
              subst hca
              subst hcs
              obtain ⟨P, Q, R, M⟩ := ih (aset cache j true) b' ca' cs' hrec
              by_cases hji : j = i
              · subst hji
                have hnotmem : j ∉ cacheKeys cache :=
                  alookup_none_of_not_mem_keys cache j hcg
                have hmem : j ∈ cacheKeys (aset cache j true) :=
                  mem_cacheKeys_aset_self cache j true
                refine ⟨?_, ?_, ?_, ?_⟩
                · rw [countId_cons, hj, Q hmem]
                  simp
                · intro hmem'
                  exact absurd hmem' hnotmem
                · intro _
                  exact M hmem
                · intro hmem'
                  exact absurd hmem' hnotmem
              · have hne : condId c ≠ some i := by
                  rw [hj]
                  simp [hji]
                refine ⟨?_, ?_, ?_, ?_⟩
                · rw [countId_cons, if_neg hne]
                  simpa using P
                · intro hmem'
                  rw [countId_cons, if_neg hne]
                  simpa using Q (mem_cacheKeys_aset cache j i true hmem')
                · intro hone
                  rw [countId_cons, if_neg hne] at hone
                  exact R (by simpa using hone)
                · intro hmem'
                  exact M (mem_cacheKeys_aset cache j i true hmem')
          | false =>
            simp only [Bool.false_eq_true, if_false, Except.ok.injEq,
              Prod.mk.injEq] at h
            obtain ⟨hb, hca, hcs⟩ := h
            subst hca
            subst hcs
            by_cases hji : j = i
            · subst hji
              have hnotmem : j ∉ cacheKeys cache :=
                alookup_none_of_not_mem_keys cache j hcg
              refine ⟨?_, ?_, ?_, ?_⟩
              · rw [countId_cons, hj, countId_nil]
                simp
              · intro hmem'
                exact absurd hmem' hnotmem
              · intro _
                exact mem_cacheKeys_aset_self cache j false
              · intro hmem'
                exact absurd hmem' hnotmem
            · have hne : condId c ≠ some i := by
                rw [hj]
                simp [hji]
              refine ⟨?_, ?_, ?_, ?_⟩
              · rw [countId_cons, if_neg hne, countId_nil]
                omega
              · intro _
                rw [countId_cons, if_neg hne, countId_nil]
              · intro hone
                rw [countId_cons, if_neg hne, countId_nil] at hone
                omega
              · intro hmem'
                exact mem_cacheKeys_aset cache j i false hmem'
    | none =>
      rw [hj] at h
      simp only [] at h
      have hne : condId c ≠ some i := by
        rw [hj]
        simp
      cases hE : E c uid dn with
      | error e =>
        rw [hE] at h
        simp only [] at h
        cases h
      | ok res =>
        rw [hE] at h
        cases res with
        | true =>
          simp only [if_pos] at h
          cases hrec : conditionChecker E rest uid dn cache with
          | error e =>
            rw [hrec] at h
            simp only [] at h
            cases h
          | ok t =>
            obtain ⟨b', ca', cs'⟩ := t
            rw [hrec] at h
            simp only [Except.ok.injEq, Prod.mk.injEq] at h
            obtain ⟨hb, hca, hcs⟩ := h
            subst hca
            subst hcs
            obtain ⟨P, Q, R, M⟩ := ih cache b' ca' cs' hrec
            refine ⟨?_, ?_, ?_, M⟩
            · rw [countId_cons, if_neg hne]
              simpa using P
            · intro hmem'
              rw [countId_cons, if_neg hne]
              simpa using Q hmem'
            · intro hone
              rw [countId_cons, if_neg hne] at hone
              exact R (by simpa using hone)
        | false =>
          simp only [Bool.false_eq_true, if_false, Except.ok.injEq,
            Prod.mk.injEq] at h
          obtain ⟨hb, hca, hcs⟩ := h
          subst hca
          subst hcs
          refine ⟨?_, ?_, ?_, fun hm => hm⟩
          · rw [countId_cons, if_neg hne, countId_nil]
            omega
          · intro _
            rw [countId_cons, if_neg hne, countId_nil]
          · intro hone
            rw [countId_cons, if_neg hne, countId_nil] at hone
            omega

theorem rulesLoop_inv (E : Ev) (uid : String) (dn : Option String) (i : String) :
    ∀ (rules : List Rule) (cache : Cache) (o : Option (List PushAction))
      (ca : Cache) (cs : List Cond),
    rulesLoop E uid dn rules cache = .ok (o, ca, cs) →
    CallInv i cache ca cs := by
  intro rules
  induction rules with
  | nil =>
    intro cache o ca cs h
    simp only [rulesLoop, Except.ok.injEq, Prod.mk.injEq] at h
    obtain ⟨ho, hca, hcs⟩ := h
    subst hca
    subst hcs
    exact CallInv.refl i cache
  | cons r rest ih =>
    intro cache o ca cs h
    simp only [rulesLoop] at h
    by_cases hen : r.enabled = some false
    · rw [if_pos hen] at h
      exact ih cache o ca cs h
    · rw [if_neg hen] at h
      cases hchk : conditionChecker E r.conditions uid dn cache with
      | error e =>
        rw [hchk] at h
        simp only [] at h
        cases h
      | ok t =>
        obtain ⟨m, c2, cs1⟩ := t
        rw [hchk] at h
        simp only [] at h
        cases m with
        | true =>
          simp only [if_pos, Except.ok.injEq, Prod.mk.injEq] at h
          obtain ⟨ho, hca, hcs⟩ := h
          subst hca
          subst hcs
          exact conditionChecker_inv E uid dn i r.conditions cache _ _ _ hchk
        | false =>
          simp only [Bool.false_eq_true, if_false] at h
          cases hrec : rulesLoop E uid dn rest c2 with
          | error e =>
            rw [hrec] at h
            simp only [] at h
            cases h
          | ok t2 =>
            obtain ⟨o2, ca2, cs2⟩ := t2
            rw [hrec] at h
            simp only [Except.ok.injEq, Prod.mk.injEq] at h
            obtain ⟨ho, hca, hcs⟩ := h
            subst hca
            subst hcs
            exact CallInv.comp
              (conditionChecker_inv E uid dn i r.conditions cache false c2 cs1 hchk)
              (ih c2 o2 ca2 cs2 hrec)

theorem usersLoop_inv (E : Ev) (dns : List (String × String))
    (fbu : List (String × List Event)) (i : String) :
    ∀ (entries : List (String × List Rule)) (cache : Cache)
      (acc res : List (String × List PushAction)) (ca : Cache) (cs : List Cond),
    usersLoop E dns fbu entries cache acc = .ok (res, ca, cs) →
    CallInv i cache ca cs := by
  intro entries
  induction entries with
  | nil =>
    intro cache acc res ca cs h
    simp only [usersLoop, Except.ok.injEq, Prod.mk.injEq] at h
    obtain ⟨hr, hca, hcs⟩ := h
    subst hca
    subst hcs
    exact CallInv.refl i cache
  | cons p rest ih =>
    obtain ⟨uid, rules⟩ := p
    intro cache acc res ca cs h
    simp only [usersLoop] at h
    cases hf : alookup fbu uid with
    | none =>
      rw [hf] at h
      simp only [] at h
      cases h
    | some filtered =>
      rw [hf] at h
      simp only [] at h
      by_cases hlen : filtered.length = 0
      · rw [if_pos hlen] at h
        exact ih cache acc res ca cs h
      · rw [if_neg hlen] at h
        cases hrl : rulesLoop E uid (alookup dns uid) rules cache with
        | error e =>
          rw [hrl] at h
          simp only [] at h
          cases h
        | ok t =>
          obtain ⟨entry, c2, cs1⟩ := t
          rw [hrl] at h
          simp only [] at h
          cases entry with
          | some a =>
            simp only [] at h
            cases hrec : usersLoop E dns fbu rest c2 (aset acc uid a) with
            | error e =>
              rw [hrec] at h
              simp only [] at h
              cases h
            | ok t2 =>
              obtain ⟨res2, ca2, cs2⟩ := t2
              rw [hrec] at h
              simp only [Except.ok.injEq, Prod.mk.injEq] at h
              obtain ⟨hr, hca, hcs⟩ := h
              subst hca
              subst hcs
              exact CallInv.comp
                (rulesLoop_inv E uid (alookup dns uid) i rules cache _ _ _ hrl)
                (ih c2 _ res2 _ _ hrec)
          | none =>
            simp only [] at h
            cases hrec : usersLoop E dns fbu rest c2 acc with
            | error e =>
              rw [hrec] at h
              simp only [] at h
              cases h
            | ok t2 =>
              obtain ⟨res2, ca2, cs2⟩ := t2
              rw [hrec] at h
              simp only [Except.ok.injEq, Prod.mk.injEq] at h
              obtain ⟨hr, hca, hcs⟩ := h
              subst hca
              subst hcs
              exact CallInv.comp
                (rulesLoop_inv E uid (alookup dns uid) i rules cache _ _ _ hrl)
                (ih c2 _ res2 _ _ hrec)

/-- Claim C3 (confirmed): within one `action_for_event_by_user` invocation,
the external evaluator is invoked at most once per cache identifier across
all rules and all users (first conjunct: in the full invocation log, at
most one call carries any given identifier `i`); and a condition without a
cache identifier is never served from the cache — whenever the checker
processes it, the evaluator is invoked on it (second conjunct: an
identifier-less condition at the head of a checked sequence is always the
first logged call of that run). -/
theorem claim3_cache_at_most_once :
    (∀ (B : BulkPushRuleEvaluator)
      (ag : List String → Except Err (List (String × Bool)))
      (fc : List (String × Bool) → List Event →
        Except Err (List (String × List Event)))
      (mk : Event → Nat → Ev)
      (gs : String → Except Err (List StateEvent))
      (event : Event) (B' : BulkPushRuleEvaluator)
      (res : List (String × List PushAction)) (cs : List Cond) (i : String),
      action_for_event_by_user B ag fc mk gs event = .ok (B', res, cs) →
      countId i cs ≤ 1) ∧
    (∀ (E : Ev) (c : Cond) (rest : List Cond) (uid : String)
      (dn : Option String) (cache : Cache) (b : Bool) (ca : Cache)
      (cs : List Cond),
      condId c = none →
      conditionChecker E (c :: rest) uid dn cache = .ok (b, ca, cs) →
      ∃ t, cs = c :: t) := by
  constructor
  · intro B ag fc mk gs event B' res cs i h
    simp only [action_for_event_by_user] at h
    cases hag : ag (B.rules_by_user.map Prod.fst) with
    | error e =>
      rw [hag] at h
      simp only [] at h
      cases h
    | ok gsRes =>
      rw [hag] at h
      simp only [] at h
      cases hfc : fc gsRes [event] with
      | error e =>
        rw [hfc] at h
        simp only [] at h
        cases h
      | ok fbu =>
        rw [hfc] at h
        simp only [] at h
        cases hgs : gs event.event_id with
        | error e =>
          rw [hgs] at h
          simp only [] at h
          cases h
        | ok st =>
          rw [hgs] at h
          simp only [] at h
          cases hul : usersLoop (mk event B.users_in_room.length)
              (buildDisplayNames st) fbu B.rules_by_user [] [] with
          | error e =>
            rw [hul] at h
            simp only [] at h
            cases h
          | ok t =>
            obtain ⟨res0, ca0, cs0⟩ := t
            rw [hul] at h
            simp only [Except.ok.injEq, Prod.mk.injEq] at h
            obtain ⟨hB, hres, hcs⟩ := h
            subst hcs
            exact (usersLoop_inv (mk event B.users_in_room.length)
              (buildDisplayNames st) fbu i B.rules_by_user [] [] res0 ca0 cs0 hul).1
  · intro E c rest uid dn cache b ca cs hid h
    simp only [conditionChecker] at h
    rw [hid] at h
    simp only [] at h
    cases hE : E c uid dn with
    | error e =>
      rw [hE] at h
      simp only [] at h
      cases h
    | ok res =>
      rw [hE] at h
      cases res with
      | true =>
        simp only [if_pos] at h
        cases hrec : conditionChecker E rest uid dn cache with
        | error e =>
          rw [hrec] at h
          simp only [] at h
          cases h
        | ok t =>
          obtain ⟨b', ca', cs'⟩ := t
          rw [hrec] at h
          simp only [Except.ok.injEq, Prod.mk.injEq] at h
          obtain ⟨hb, hca, hcs⟩ := h
          exact ⟨cs', hcs.symm⟩
      | false =>
        simp only [Bool.false_eq_true, if_false, Except.ok.injEq,
          Prod.mk.injEq] at h
        obtain ⟨hb, hca, hcs⟩ := h
        exact ⟨[], hcs.symm⟩

/-- Witness for C3: a concrete bulk evaluation with two users sharing the
cache identifier `"c1"` logs at most one call for `"c1"`, and an
identifier-less condition at the head of a checked sequence heads the call
log of that run. -/
theorem claim3_cache_at_most_once_witness :
    countId "c1"
      [Cond.mk 0 (some "c1")] ≤ 1 ∧
    ∃ t, ([Cond.mk 5 none] : List Cond) = Cond.mk 5 none :: t := by
  constructor
  · exact claim3_cache_at_most_once.1
      ⟨"room1", [("u1", [⟨none, [⟨0, some "c1"⟩], [PushAction.str "notify"]⟩]),
                 ("u2", [⟨none, [⟨0, some "c1"⟩], [PushAction.str "notify"]⟩])],
       ["u1", "u2"]⟩
      (fun _ => .ok [("u1", false), ("u2", false)])
      (fun _ _ => .ok [("u1", [⟨"e1"⟩]), ("u2", [⟨"e1"⟩])])
      (fun _ _ => evAllTrue)
      (fun _ => .ok []) ⟨"e1"⟩ ⟨"room1",
        [("u1", [⟨none, [⟨0, some "c1"⟩], [PushAction.str "notify"]⟩]),
         ("u2", [⟨none, [⟨0, some "c1"⟩], [PushAction.str "notify"]⟩])],
        ["u1", "u2"]⟩
      [("u1", [PushAction.str "notify"]), ("u2", [PushAction.str "notify"])]
      [Cond.mk 0 (some "c1")] "c1" rfl
  · exact claim3_cache_at_most_once.2 evAllTrue (Cond.mk 5 none) [] "u1" none
      [] true [] [Cond.mk 5 none] rfl rfl

theorem allPass_append (E : Ev) (uid : String) (dn : Option String) :
    ∀ (pre : List Cond) (cache c1 : Cache) (cs1 : List Cond) (suf : List Cond),
    allPass E uid dn pre cache = some (c1, cs1) →
    conditionChecker E (pre ++ suf) uid dn cache =
      (match conditionChecker E suf uid dn c1 with
       | .error e => .error e
       | .ok (b, ca, cs) => .ok (b, ca, cs1 ++ cs)) := by
  intro pre
  induction pre with
  | nil =>
    intro cache c1 cs1 suf h
    simp only [allPass, Option.some.injEq, Prod.mk.injEq] at h
    obtain ⟨hc, hs⟩ := h
    subst hc
    subst hs
    cases hx : conditionChecker E suf uid dn cache with
    | error e => simp [hx]
    | ok t =>
      obtain ⟨b, ca, cs⟩ := t
      simp [hx]
  | cons c pre' ih =>
    intro cache c1 cs1 suf h
    simp only [allPass] at h
    cases hj : condId c with
    | some j =>
      rw [hj] at h
      simp only [] at h
      cases hcg : alookup cache j with
      | some v =>
        rw [hcg] at h
        cases v with
        | false =>
          simp only [] at h
          cases h
        | true =>
          simp only [] at h
          have IH := ih cache c1 cs1 suf h
          rw [List.cons_append]
          simp only [conditionChecker, hj, hcg]
          exact IH
      | none =>
        rw [hcg] at h
        simp only [] at h
        cases hE : E c uid dn with
        | error e =>
          rw [hE] at h
          simp only [] at h
          cases h
        | ok res =>
          rw [hE] at h
          cases res with
          | false =>
            simp only [] at h
            cases h
          | true =>
            simp only [] at h
            cases hrec : allPass E uid dn pre' (aset cache j true) with
            | none =>
              rw [hrec] at h
              simp only [] at h
              cases h
            | some t =>
              obtain ⟨ca', cs'⟩ := t
              rw [hrec] at h
              simp only [Option.some.injEq, Prod.mk.injEq] at h
              obtain ⟨hc, hs⟩ := h
              subst hc
              subst hs
              have IH := ih _ _ _ suf hrec
              rw [List.cons_append]
              simp only [conditionChecker, hj, hcg, hE, if_pos, IH]
              cases hx : conditionChecker E suf uid dn ca' with
              | error e => simp [hx]
              | ok t2 =>
                obtain ⟨b, ca, cs⟩ := t2
                simp [hx]
    | none =>
      rw [hj] at h
      simp only [] at h
      cases hE : E c uid dn with
      | error e =>
        rw [hE] at h
        simp only [] at h
        cases h
      | ok res =>
        rw [hE] at h
        cases res with
        | false =>
          simp only [] at h
          cases h
        | true =>
          simp only [] at h
          cases hrec : allPass E uid dn pre' cache with
          | none =>
            rw [hrec] at h
            simp only [] at h
            cases h
          | some t =>
            obtain ⟨ca', cs'⟩ := t
            rw [hrec] at h
            simp only [Option.some.injEq, Prod.mk.injEq] at h
            obtain ⟨hc, hs⟩ := h
            subst hc
            subst hs
            have IH := ih _ _ _ suf hrec
            rw [List.cons_append]
            simp only [conditionChecker, hj, hE, if_pos, IH]
            cases hx : conditionChecker E suf uid dn ca' with
            | error e => simp [hx]
            | ok t2 =>
              obtain ⟨b, ca, cs⟩ := t2
              simp [hx]

/-- Claim C5 (confirmed): once the condition at position `i` of a rule's
sequence comes out `False` — whether from the cache (first conjunct) or
freshly from the evaluator (second and third conjuncts) — the evaluator is
never invoked on any later condition of that rule: the result and the call
log are independent of the suffix `suf`, which does not appear on the
right-hand sides.  (`allPass` describes the checker having reached
position `i` with every earlier condition passing.) -/
theorem claim5_short_circuit :
    ∀ (E : Ev) (uid : String) (dn : Option String) (pre : List Cond)
      (cache c1 : Cache) (cs1 : List Cond) (c : Cond) (suf : List Cond),
    allPass E uid dn pre cache = some (c1, cs1) →
    ((∀ i, condId c = some i → alookup c1 i = some false →
        conditionChecker E (pre ++ c :: suf) uid dn cache
          = .ok (true, c1, cs1)) ∧
     (condId c = none → E c uid dn = .ok false →
        conditionChecker E (pre ++ c :: suf) uid dn cache
          = .ok (false, c1, cs1 ++ [c])) ∧
     (∀ i, condId c = some i → alookup c1 i = none → E c uid dn = .ok false →
        conditionChecker E (pre ++ c :: suf) uid dn cache
          = .ok (false, aset c1 i false, cs1 ++ [c]))) := by
  intro E uid dn pre cache c1 cs1 c suf h
  refine ⟨?_, ?_, ?_⟩
  · intro i hci hcf
    rw [allPass_append E uid dn pre cache c1 cs1 (c :: suf) h]
    simp only [conditionChecker, hci, hcf]
    simp
  · intro hci hE
    rw [allPass_append E uid dn pre cache c1 cs1 (c :: suf) h]
    simp only [conditionChecker, hci, hE]
    simp
  · intro i hci hmiss hE
    rw [allPass_append E uid dn pre cache c1 cs1 (c :: suf) h]
    simp only [conditionChecker, hci, hmiss, hE]
    simp

/-- Witness for C5: with the evaluator true exactly on tag 1, condition
`⟨1,none⟩` passes, then `⟨0,"c1"⟩` is cached `False` (first case) or
freshly `False` (second case), and the trailing condition `⟨9,none⟩` is
never invoked — the call log stops at the failing position. -/
theorem claim5_short_circuit_witness :
    conditionChecker evByTag [⟨1, none⟩, ⟨0, some "c1"⟩, ⟨9, none⟩] "u1" none
      [("c1", false)] = .ok (true, [("c1", false)], [⟨1, none⟩]) ∧
    conditionChecker evByTag [⟨1, none⟩, ⟨0, none⟩, ⟨9, none⟩] "u1" none []
      = .ok (false, [], [⟨1, none⟩, ⟨0, none⟩]) := by
  constructor
  · exact (claim5_short_circuit evByTag "u1" none [⟨1, none⟩] [("c1", false)]
      [("c1", false)] [⟨1, none⟩] ⟨0, some "c1"⟩ [⟨9, none⟩] rfl).1 "c1" rfl rfl
  · exact (claim5_short_circuit evByTag "u1" none [⟨1, none⟩] [] []
      [⟨1, none⟩] ⟨0, none⟩ [⟨9, none⟩] rfl).2.1 rfl rfl

theorem noRuleWins_append (E : Ev) (uid : String) (dn : Option String) :
    ∀ (pre : List Rule) (cache c1 : Cache) (cs1 : List Cond) (rs : List Rule),
    noRuleWins E uid dn pre cache = some (c1, cs1) →
    rulesLoop E uid dn (pre ++ rs) cache =
      (match rulesLoop E uid dn rs c1 with
       | .error e => .error e
       | .ok (o, ca, cs) => .ok (o, ca, cs1 ++ cs)) := by
  intro pre
  induction pre with
  | nil =>
    intro cache c1 cs1 rs h
    simp only [noRuleWins, Option.some.injEq, Prod.mk.injEq] at h
    obtain ⟨hc, hs⟩ := h
    subst hc
    subst hs
    cases hx : rulesLoop E uid dn rs cache with
    | error e => simp [hx]
    | ok t =>
      obtain ⟨o, ca, cs⟩ := t
      simp [hx]
  | cons r pre' ih =>
    intro cache c1 cs1 rs h
    simp only [noRuleWins] at h
    by_cases hen : r.enabled = some false
    · rw [if_pos hen] at h
      have IH := ih cache c1 cs1 rs h
      rw [List.cons_append]
      simp only [rulesLoop, if_pos hen]
      exact IH
    · rw [if_neg hen] at h
      cases hchk : conditionChecker E r.conditions uid dn cache with
      | error e =>
        rw [hchk] at h
        simp only [] at h
        cases h
      | ok t =>
        obtain ⟨m, c2, cs⟩ := t
        rw [hchk] at h
        cases m with
        | true =>
          simp only [] at h
          cases h
        | false =>
          simp only [] at h
          cases hrec : noRuleWins E uid dn pre' c2 with
          | none =>
            rw [hrec] at h
            simp only [] at h
            cases h
          | some t2 =>
            obtain ⟨ca', cs2'⟩ := t2
            rw [hrec] at h
            simp only [Option.some.injEq, Prod.mk.injEq] at h
            obtain ⟨hc, hs⟩ := h
            subst hc
            subst hs
            have IH := ih _ _ _ rs hrec
            rw [List.cons_append]
            simp only [rulesLoop, if_neg hen, hchk, Bool.false_eq_true,
              if_false, IH]
            cases hx : rulesLoop E uid dn rs ca' with
            | error e => simp [hx]
            | ok t3 =>
              obtain ⟨o, ca, csx⟩ := t3
              simp [hx]

/-- Claim C4 (confirmed): first-match-wins.  If no rule of the prefix
`pre` wins (each is disabled or fails its condition check), rule `A` is
enabled and its conditions check out `True`, then the rule loop's result
is `A`'s entry — `A`'s actions with `dont_notify` removed (`ruleEntry A`)
— regardless of any later rules: the result and call log are independent
of `B` and `post`, which never contribute an evaluator call and are never
consulted. -/
theorem claim4_first_match_wins :
    ∀ (E : Ev) (uid : String) (dn : Option String) (pre : List Rule)
      (cache c1 : Cache) (cs1 : List Cond) (A B : Rule) (post : List Rule)
      (c2 : Cache) (cs2 : List Cond),
    noRuleWins E uid dn pre cache = some (c1, cs1) →
    A.enabled ≠ some false →
    conditionChecker E A.conditions uid dn c1 = .ok (true, c2, cs2) →
    rulesLoop E uid dn (pre ++ A :: B :: post) cache =
      .ok (ruleEntry A, c2, cs1 ++ cs2) := by
  intro E uid dn pre cache c1 cs1 A B post c2 cs2 hpre hen hchk
  rw [noRuleWins_append E uid dn pre cache c1 cs1 (A :: B :: post) hpre]
  rw [rulesLoop_head_match E uid dn A (B :: post) c1 c2 cs2 hen hchk]

/-- Witness for C4: rule 0 (enabled, condition tag 0, evaluates `False`)
does not win; rule `A` (condition tag 1, evaluates `True`) wins with its
action `notify`; rule `B` (no conditions — would also match) is never
consulted. -/
theorem claim4_first_match_wins_witness :
    rulesLoop evByTag "u1" none
      [⟨none, [⟨0, none⟩], [PushAction.str "never"]⟩,
       ⟨none, [⟨1, none⟩], [PushAction.str "notify"]⟩,
       ⟨none, [], [PushAction.str "sound"]⟩] []
      = .ok (some [PushAction.str "notify"], [], [⟨0, none⟩, ⟨1, none⟩]) := by
  exact claim4_first_match_wins evByTag "u1" none
    [⟨none, [⟨0, none⟩], [PushAction.str "never"]⟩] [] [] [⟨0, none⟩]
    ⟨none, [⟨1, none⟩], [PushAction.str "notify"]⟩
    ⟨none, [], [PushAction.str "sound"]⟩ [] [] [⟨1, none⟩] rfl (by simp) rfl

/-- Claim C10 (confirmed): `action_for_event_by_user` does not modify the
evaluator's state — with the instance state passed and returned explicitly,
every successful invocation returns the state it was given (so `room_id`,
`rules_by_user` with all conditions and actions, and `users_in_room` are
identical before and after).  The condition cache and the actions map are
allocated fresh inside the call (`condition_cache = {}`,
`actions_by_user = {}`) and only the actions map escapes, as the returned
result. -/
theorem claim10_frame :
    ∀ (B : BulkPushRuleEvaluator)
      (ag : List String → Except Err (List (String × Bool)))
      (fc : List (String × Bool) → List Event →
        Except Err (List (String × List Event)))
      (mk : Event → Nat → Ev)
      (gs : String → Except Err (List StateEvent))
      (event : Event) (B' : BulkPushRuleEvaluator)
      (res : List (String × List PushAction)) (cs : List Cond),
    action_for_event_by_user B ag fc mk gs event = .ok (B', res, cs) →
    B' = B := by
  intro B ag fc mk gs event B' res cs h
  simp only [action_for_event_by_user] at h
  cases hag : ag (B.rules_by_user.map Prod.fst) with
  | error e =>
    rw [hag] at h
    simp only [] at h
    cases h
  | ok gsRes =>
    rw [hag] at h
    simp only [] at h
    cases hfc : fc gsRes [event] with
    | error e =>
      rw [hfc] at h
      simp only [] at h
      cases h
    | ok fbu =>
      rw [hfc] at h
      simp only [] at h
      cases hgs : gs event.event_id with
      | error e =>
        rw [hgs] at h
        simp only [] at h
        cases h
      | ok st =>
        rw [hgs] at h
        simp only [] at h
        cases hul : usersLoop (mk event B.users_in_room.length)
            (buildDisplayNames st) fbu B.rules_by_user [] [] with
        | error e =>
          rw [hul] at h
          simp only [] at h
          cases h
        | ok t =>
          obtain ⟨res0, ca0, cs0⟩ := t
          rw [hul] at h
          simp only [Except.ok.injEq, Prod.mk.injEq] at h
          exact h.1.symm

/-- Witness for C10: a concrete successful evaluation returns the exact
instance state it was invoked on. -/
theorem claim10_frame_witness :
    (⟨"room1", [("u1", [⟨none, [], [PushAction.str "notify"]⟩])], ["u1"]⟩ :
      BulkPushRuleEvaluator)
      = ⟨"room1", [("u1", [⟨none, [], [PushAction.str "notify"]⟩])], ["u1"]⟩ :=
  claim10_frame
    ⟨"room1", [("u1", [⟨none, [], [PushAction.str "notify"]⟩])], ["u1"]⟩
    (fun _ => .ok [("u1", false)]) (fun _ _ => .ok [("u1", [⟨"e1"⟩])])
    (fun _ _ => evAllTrue) (fun _ => .ok []) ⟨"e1"⟩
    ⟨"room1", [("u1", [⟨none, [], [PushAction.str "notify"]⟩])], ["u1"]⟩
    [("u1", [PushAction.str "notify"])] [] rfl

theorem decodeRows_error :
    ∀ (rows : List RawRule) (row : RawRule) (e : Err),
    row ∈ rows → decode_rule_json row = .error e →
    ∃ e', decodeRows rows = .error e' := by
  intro rows
  induction rows with
  | nil =>
    intro row e h
    exact absurd h (List.not_mem_nil row)
  | cons r rs ih =>
    intro row e hmem hdec
    cases hd : decode_rule_json r with
    | error e2 =>
      exact ⟨e2, by simp [decodeRows, hd]⟩
    | ok rule =>
      rcases List.mem_cons.mp hmem with h1 | h1
      · subst h1
        rw [hdec] at hd
        cases hd
      · obtain ⟨e', he'⟩ := ih row e h1 hdec
        exact ⟨e', by simp [decodeRows, hd, he']⟩

/-- Claim C8 (confirmed): every failure propagates uncaught, and no
partial result is produced (the result type is all-or-nothing).  The
conjuncts cover, in order: a malformed stored row fails the whole rule
load (`_get_rules` via `decode_rule_json`); a failing `store.are_guests`,
`handler._filter_events_for_clients` or `store.get_state_for_event` call
makes `action_for_event_by_user` fail with that same error; a failing
condition-evaluator call aborts the rule loop, the user loop, and hence
the whole evaluation, with the same error. -/
theorem claim8_failure_propagation :
    (∀ (store : String → List RawRule) (withBase : List Rule → List Rule)
       (userIds : List String) (uid : String) (row : RawRule) (e : Err),
       uid ∈ userIds → row ∈ store uid → decode_rule_json row = .error e →
       ∃ e', getRules store withBase userIds = .error e') ∧
    (∀ (B : BulkPushRuleEvaluator) ag fc (mk : Event → Nat → Ev)
       (gs : String → Except Err (List StateEvent)) (event : Event) (e : Err),
       ag (B.rules_by_user.map Prod.fst) = .error e →
       action_for_event_by_user B ag fc mk gs event = .error e) ∧
    (∀ (B : BulkPushRuleEvaluator) ag fc (mk : Event → Nat → Ev)
       (gs : String → Except Err (List StateEvent)) (event : Event)
       (gsRes : List (String × Bool)) (e : Err),
       ag (B.rules_by_user.map Prod.fst) = .ok gsRes →
       fc gsRes [event] = .error e →
       action_for_event_by_user B ag fc mk gs event = .error e) ∧
    (∀ (B : BulkPushRuleEvaluator) ag fc (mk : Event → Nat → Ev)
       (gs : String → Except Err (List StateEvent)) (event : Event)
       (gsRes : List (String × Bool)) (fbu : List (String × List Event))
       (e : Err),
       ag (B.rules_by_user.map Prod.fst) = .ok gsRes →
       fc gsRes [event] = .ok fbu →
       gs event.event_id = .error e →
       action_for_event_by_user B ag fc mk gs event = .error e) ∧
    (∀ (E : Ev) (uid : String) (dn : Option String) (r : Rule)
       (rest : List Rule) (cache : Cache) (e : Err),
       r.enabled ≠ some false →
       conditionChecker E r.conditions uid dn cache = .error e →
       rulesLoop E uid dn (r :: rest) cache = .error e) ∧
    (∀ (E : Ev) (dns : List (String × String))
       (fbu : List (String × List Event)) (uid : String) (rules : List Rule)
       (rest : List (String × List Rule)) (cache : Cache)
       (acc : List (String × List PushAction)) (filtered : List Event)
       (e : Err),
       alookup fbu uid = some filtered → filtered.length ≠ 0 →
       rulesLoop E uid (alookup dns uid) rules cache = .error e →
       usersLoop E dns fbu ((uid, rules) :: rest) cache acc = .error e) ∧
    (∀ (B : BulkPushRuleEvaluator) ag fc (mk : Event → Nat → Ev)
       (gs : String → Except Err (List StateEvent)) (event : Event)
       (gsRes : List (String × Bool)) (fbu : List (String × List Event))
       (st : List StateEvent) (e : Err),
       ag (B.rules_by_user.map Prod.fst) = .ok gsRes →
       fc gsRes [event] = .ok fbu →
       gs event.event_id = .ok st →
       usersLoop (mk event B.users_in_room.length) (buildDisplayNames st)
         fbu B.rules_by_user [] [] = .error e →
       action_for_event_by_user B ag fc mk gs event = .error e) := by
  refine ⟨?_, ?_, ?_, ?_, ?_, ?_, ?_⟩
  · intro store withBase userIds
    induction userIds with
    | nil =>
      intro uid row e h
      exact absurd h (List.not_mem_nil uid)
    | cons u us ih =>
      intro uid row e hmem hrow hdec
      cases hdr : decodeRows (store u) with
      | error e2 =>
        exact ⟨e2, by simp [getRules, hdr]⟩
      | ok rules =>
        rcases List.mem_cons.mp hmem with h1 | h1
        · subst h1
          obtain ⟨e', he'⟩ := decodeRows_error (store uid) row e hrow hdec
          rw [he'] at hdr
          cases hdr
        · obtain ⟨e', he'⟩ := ih uid row e h1 hrow hdec
          exact ⟨e', by simp [getRules, hdr, he']⟩
  · intro B ag fc mk gs event e hag
    simp [action_for_event_by_user, hag]
  · intro B ag fc mk gs event gsRes e hag hfc
    simp [action_for_event_by_user, hag, hfc]
  · intro B ag fc mk gs event gsRes fbu e hag hfc hgs
    simp [action_for_event_by_user, hag, hfc, hgs]
  · intro E uid dn r rest cache e hen hchk
    simp [rulesLoop, if_neg hen, hchk]
  · intro E dns fbu uid rules rest cache acc filtered e hf hlen hrl
    have hlen' : filtered ≠ [] := by
      intro h
      exact hlen (by simp [h])
    simp [usersLoop, hf, if_neg hlen, hrl, hlen']
  · intro B ag fc mk gs event gsRes fbu st e hag hfc hgs hul
    simp [action_for_event_by_user, hag, hfc, hgs, hul]

/-- Witness for C8: concrete applications of each propagation conjunct —
a row whose `conditions` column fails to decode fails the whole
`_get_rules`; a failing `are_guests` call, and a failing evaluator inside
the loops, each surface as the evaluation's own error. -/
theorem claim8_failure_propagation_witness :
    (∃ e', getRules
        (fun _ => [⟨.error "bad json", .ok [], none⟩]) (fun rs => rs) ["u1"]
        = .error e') ∧
    action_for_event_by_user ⟨"room1", [("u1", [])], ["u1"]⟩
      (fun _ => .error "db down") (fun _ _ => .ok []) (fun _ _ => evAllTrue)
      (fun _ => .ok []) ⟨"e1"⟩ = .error "db down" ∧
    rulesLoop evAllError "u1" none
      [⟨none, [⟨0, none⟩], [PushAction.str "notify"]⟩] []
      = .error "evaluator failed" ∧
    usersLoop evAllError [] [("u1", [⟨"e1"⟩])]
      [("u1", [⟨none, [⟨0, none⟩], [PushAction.str "notify"]⟩])] [] []
      = .error "evaluator failed" := by
  refine ⟨?_, ?_, ?_, ?_⟩
  · exact claim8_failure_propagation.1
      (fun _ => [⟨.error "bad json", .ok [], none⟩]) (fun rs => rs) ["u1"]
      "u1" ⟨.error "bad json", .ok [], none⟩ "bad json" (by simp) (by simp) rfl
  · exact claim8_failure_propagation.2.1 ⟨"room1", [("u1", [])], ["u1"]⟩
      (fun _ => .error "db down") (fun _ _ => .ok []) (fun _ _ => evAllTrue)
      (fun _ => .ok []) ⟨"e1"⟩ "db down" rfl
  · exact claim8_failure_propagation.2.2.2.2.1 evAllError "u1" none
      ⟨none, [⟨0, none⟩], [PushAction.str "notify"]⟩ [] [] "evaluator failed"
      (by simp) rfl
  · exact claim8_failure_propagation.2.2.2.2.2.1 evAllError []
      [("u1", [⟨"e1"⟩])] "u1"
      [⟨none, [⟨0, none⟩], [PushAction.str "notify"]⟩] [] [] [] [⟨"e1"⟩]
      "evaluator failed" rfl (by simp) rfl

theorem conditionChecker_total (E : Ev)
    (hE : ∀ c u d, ∃ b, E c u d = .ok b) :
    ∀ (conds : List Cond) (uid : String) (dn : Option String) (cache : Cache),
    ∃ b ca cs, conditionChecker E conds uid dn cache = .ok (b, ca, cs) := by
  intro conds
  induction conds with
  | nil =>
    intro uid dn cache
    exact ⟨true, cache, [], rfl⟩
  | cons c rest ih =>
    intro uid dn cache
    cases hj : condId c with
    | some j =>
      cases hcg : alookup cache j with
      | some v =>
        cases v with
        | false => exact ⟨true, cache, [], by simp [conditionChecker, hj, hcg]⟩
        | true =>
          obtain ⟨b, ca, cs, hrec⟩ := ih uid dn cache
          exact ⟨b, ca, cs, by simp [conditionChecker, hj, hcg, hrec]⟩
      | none =>
        obtain ⟨res, hres⟩ := hE c uid dn
        cases res with
        | false =>
          exact ⟨false, aset cache j false, [c],
            by simp [conditionChecker, hj, hcg, hres]⟩
        | true =>
          obtain ⟨b, ca, cs, hrec⟩ := ih uid dn (aset cache j true)
          exact ⟨b, ca, c :: cs,
            by simp [conditionChecker, hj, hcg, hres, hrec]⟩
    | none =>
      obtain ⟨res, hres⟩ := hE c uid dn
      cases res with
      | false => exact ⟨false, cache, [c], by simp [conditionChecker, hj, hres]⟩
      | true =>
        obtain ⟨b, ca, cs, hrec⟩ := ih uid dn cache
        exact ⟨b, ca, c :: cs, by simp [conditionChecker, hj, hres, hrec]⟩

theorem rulesLoop_total (E : Ev)
    (hE : ∀ c u d, ∃ b, E c u d = .ok b) :
    ∀ (rules : List Rule) (uid : String) (dn : Option String) (cache : Cache),
    ∃ o ca cs, rulesLoop E uid dn rules cache = .ok (o, ca, cs) := by
  intro rules
  induction rules with
  | nil =>
    intro uid dn cache
    exact ⟨none, cache, [], rfl⟩
  | cons r rest ih =>
    intro uid dn cache
    by_cases hen : r.enabled = some false
    · obtain ⟨o, ca, cs, hrec⟩ := ih uid dn cache
      exact ⟨o, ca, cs, by simp [rulesLoop, if_pos hen, hrec]⟩
    · obtain ⟨b, c2, cs, hchk⟩ := conditionChecker_total E hE r.conditions uid dn cache
      cases b with
      | true =>
        exact ⟨ruleEntry r, c2, cs, by simp [rulesLoop, if_neg hen, hchk]⟩
      | false =>
        obtain ⟨o, ca, cs2, hrec⟩ := ih uid dn c2
        exact ⟨o, ca, cs ++ cs2, by simp [rulesLoop, if_neg hen, hchk, hrec]⟩

theorem usersLoop_skips_empty (E : Ev)
    (hE : ∀ c u d, ∃ b, E c u d = .ok b)
    (dns : List (String × String)) (fbu : List (String × List Event))
    (uid : String) :
    ∀ (entries : List (String × List Rule)) (cache : Cache)
      (acc : List (String × List PushAction)),
    (∀ u ∈ entries.map Prod.fst, ∃ l, alookup fbu u = some l) →
    alookup fbu uid = some [] →
    ∃ res ca cs, usersLoop E dns fbu entries cache acc = .ok (res, ca, cs) ∧
      alookup res uid = alookup acc uid := by
  intro entries
  induction entries with
  | nil =>
    intro cache acc hall huid
    exact ⟨acc, cache, [], rfl, rfl⟩
  | cons p rest ih =>
    obtain ⟨u, rules⟩ := p
    intro cache acc hall huid
    obtain ⟨l, hl⟩ := hall u (by simp)
    have hall' : ∀ v ∈ rest.map Prod.fst, ∃ l2, alookup fbu v = some l2 :=
      fun v hv => hall v (by simp [hv])
    by_cases hlen : l.length = 0
    · obtain ⟨res, ca, cs, hrun, hres⟩ := ih cache acc hall' huid
      exact ⟨res, ca, cs, by simp [usersLoop, hl, hlen, hrun], hres⟩
    · obtain ⟨entry, c2, cs1, hrl⟩ :=
        rulesLoop_total E hE rules u (alookup dns u) cache
      have hlne : l ≠ [] := by
        intro h
        exact hlen (by simp [h])
      cases entry with
      | none =>
        obtain ⟨res, ca, cs, hrun, hres⟩ := ih c2 acc hall' huid
        exact ⟨res, ca, cs1 ++ cs,
          by simp [usersLoop, hl, hlen, hlne, hrl, hrun], hres⟩
      | some a =>
        have hune : u ≠ uid := by
          intro hu
          subst hu
          rw [huid] at hl
          cases hl
          exact hlne rfl
        obtain ⟨res, ca, cs, hrun, hres⟩ := ih c2 (aset acc u a) hall' huid
        refine ⟨res, ca, cs1 ++ cs,
          by simp [usersLoop, hl, hlen, hlne, hrl, hrun], ?_⟩
        rw [hres, alookup_aset_ne acc u uid a hune]

theorem usersLoop_skip_eq (E : Ev) (dns : List (String × String))
    (fbu : List (String × List Event)) (uid : String)
    (huid : alookup fbu uid = some []) :
    ∀ (entries : List (String × List Rule)) (cache : Cache)
      (acc : List (String × List PushAction)),
    usersLoop E dns fbu entries cache acc =
      usersLoop E dns fbu (eraseKey uid entries) cache acc := by
  intro entries
  induction entries with
  | nil =>
    intro cache acc
    rfl
  | cons p rest ih =>
    obtain ⟨u, rules⟩ := p
    intro cache acc
    by_cases hu : u = uid
    · subst hu
      have he : eraseKey u ((u, rules) :: rest) = eraseKey u rest := by
        simp [eraseKey]
      rw [he, ← ih cache acc]
      simp [usersLoop, huid]
    · simp only [eraseKey, if_neg hu]
      simp only [usersLoop, ih]

/-- Claim C2 as amended (the original claim is refuted by
`claim2_counterexample`): a user whose entry in the visibility filter's
result is an *empty sequence* is skipped.  First conjunct: the matching
pass over any rule mapping containing such a user behaves exactly as if
that user were erased from the mapping, so the remaining users receive
exactly the entries their own rules produce.  Second conjunct, at the top
level: the evaluation succeeds, the skipped user has no entry in the
returned actions map regardless of their rules, and the returned map and
call log are exactly those computed for the remaining users (the
rule mapping with the skipped user erased).  A user with *no entry at
all* in the filter's result instead makes the whole evaluation fail with
a lookup error (hence the hypothesis that every user of the rule mapping
has some entry). -/
theorem claim2_visibility_empty_skips :
    (∀ (E : Ev) (dns : List (String × String))
       (fbu : List (String × List Event)) (uid : String)
       (entries : List (String × List Rule)) (cache : Cache)
       (acc : List (String × List PushAction)),
     alookup fbu uid = some [] →
     usersLoop E dns fbu entries cache acc =
       usersLoop E dns fbu (eraseKey uid entries) cache acc) ∧
    (∀ (B : BulkPushRuleEvaluator)
       (ag : List String → Except Err (List (String × Bool)))
       (fc : List (String × Bool) → List Event →
         Except Err (List (String × List Event)))
       (mk : Event → Nat → Ev)
       (gs : String → Except Err (List StateEvent))
       (event : Event) (gsRes : List (String × Bool))
       (fbu : List (String × List Event)) (st : List StateEvent)
       (uid : String),
     ag (B.rules_by_user.map Prod.fst) = .ok gsRes →
     fc gsRes [event] = .ok fbu →
     gs event.event_id = .ok st →
     (∀ c u d, ∃ b, mk event B.users_in_room.length c u d = .ok b) →
     (∀ u ∈ B.rules_by_user.map Prod.fst, ∃ l, alookup fbu u = some l) →
     alookup fbu uid = some [] →
     ∃ res cs, action_for_event_by_user B ag fc mk gs event = .ok (B, res, cs) ∧
       alookup res uid = none ∧
       ∃ ca, usersLoop (mk event B.users_in_room.length) (buildDisplayNames st)
         fbu (eraseKey uid B.rules_by_user) [] [] = .ok (res, ca, cs)) := by
  constructor
  · intro E dns fbu uid entries cache acc huid
    exact usersLoop_skip_eq E dns fbu uid huid entries cache acc
  · intro B ag fc mk gs event gsRes fbu st uid hag hfc hgs hE hall huid
    obtain ⟨res, ca, cs, hrun, hres⟩ :=
      usersLoop_skips_empty (mk event B.users_in_room.length) hE
        (buildDisplayNames st) fbu uid B.rules_by_user [] [] hall huid
    refine ⟨res, cs, ?_, by rw [hres]; rfl, ⟨ca, ?_⟩⟩
    · simp [action_for_event_by_user, hag, hfc, hgs, hrun]
    · rw [← usersLoop_skip_eq (mk event B.users_in_room.length)
        (buildDisplayNames st) fbu uid huid B.rules_by_user [] []]
      exact hrun

/-- Witness for C2 (amended): user `u1` is mapped to the empty
visible-event sequence.  First conjunct: the two-user matching pass
equals the pass over `u2` alone and returns exactly `u2`'s entry
`[notify]` — the remaining user's entry is preserved while `u1` is
skipped.  Second conjunct: the full evaluation succeeds, `u1` has no
entry even though the all-true evaluator would make their rule win, and
the returned map is exactly the one computed for the remaining users. -/
theorem claim2_visibility_empty_skips_witness :
    usersLoop evAllTrue [] [("u1", []), ("u2", [⟨"e1"⟩])]
      [("u1", [⟨none, [], [PushAction.str "notify"]⟩]),
       ("u2", [⟨none, [], [PushAction.str "notify"]⟩])] [] []
      = .ok ([("u2", [PushAction.str "notify"])], [], []) ∧
    (∃ res cs,
      action_for_event_by_user
        ⟨"room1", [("u1", [⟨none, [], [PushAction.str "notify"]⟩]),
                   ("u2", [⟨none, [], [PushAction.str "notify"]⟩])],
         ["u1", "u2"]⟩
        (fun _ => .ok [("u1", false), ("u2", false)])
        (fun _ _ => .ok [("u1", []), ("u2", [⟨"e1"⟩])])
        (fun _ _ => evAllTrue) (fun _ => .ok []) ⟨"e1"⟩
        = .ok (⟨"room1", [("u1", [⟨none, [], [PushAction.str "notify"]⟩]),
                          ("u2", [⟨none, [], [PushAction.str "notify"]⟩])],
               ["u1", "u2"]⟩, res, cs) ∧
      alookup res "u1" = none ∧
      ∃ ca, usersLoop evAllTrue (buildDisplayNames [])
        [("u1", []), ("u2", [⟨"e1"⟩])]
        (eraseKey "u1"
          [("u1", [⟨none, [], [PushAction.str "notify"]⟩]),
           ("u2", [⟨none, [], [PushAction.str "notify"]⟩])]) [] []
        = .ok (res, ca, cs)) := by
  constructor
  · rw [claim2_visibility_empty_skips.1 evAllTrue []
      [("u1", []), ("u2", [⟨"e1"⟩])] "u1"
      [("u1", [⟨none, [], [PushAction.str "notify"]⟩]),
       ("u2", [⟨none, [], [PushAction.str "notify"]⟩])] [] [] rfl]
    rfl
  · refine claim2_visibility_empty_skips.2
      ⟨"room1", [("u1", [⟨none, [], [PushAction.str "notify"]⟩]),
                 ("u2", [⟨none, [], [PushAction.str "notify"]⟩])],
       ["u1", "u2"]⟩
      (fun _ => .ok [("u1", false), ("u2", false)])
      (fun _ _ => .ok [("u1", []), ("u2", [⟨"e1"⟩])])
      (fun _ _ => evAllTrue) (fun _ => .ok []) ⟨"e1"⟩
      [("u1", false), ("u2", false)] [("u1", []), ("u2", [⟨"e1"⟩])] [] "u1"
      rfl rfl rfl (fun _ _ _ => ⟨true, rfl⟩) ?_ rfl
    intro u hu
    simp only [List.map_cons, List.map_nil, List.mem_cons,
      List.not_mem_nil, or_false] at hu
    rcases hu with h | h
    · subst h
      exact ⟨[], rfl⟩
    · subst h
      exact ⟨[⟨"e1"⟩], rfl⟩
